import Mathlib

/-!
Verification of the travel-position engine in
`custom_components/cover_time_based_synced/travelcalculator.py`.

Modelling conventions:
* Python numbers (int and float positions, durations, timestamps) are
  modelled as rationals `ℚ`; only the final `int(...)` truncation of
  `_calculate_position` is modelled explicitly (`pyInt`).
* A Python `ZeroDivisionError` is modelled by an `Option` result:
  `none` means the call raises.  The divisions inside
  `_calculate_traversed_segments` are guarded by `actual_end > actual_start`
  (resp. `actual_start > actual_end`), which forces the denominator
  `seg_end - seg_start` to be nonzero, so plain `ℚ` division is faithful
  there; the division by `seg_duration` in `_position_from_time` is not
  guarded, hence the explicit zero test.
* `current_time()` is an injectable seam (`time_set_from_outside`); each
  operation that reads it takes the value it returns as an argument `now`.
-/

inductive PositionType where
  | UNKNOWN
  | CALCULATED
  | CONFIRMED
deriving DecidableEq, Repr

inductive TravelStatus where
  | DIRECTION_UP
  | DIRECTION_DOWN
  | STOPPED
deriving DecidableEq, Repr

@[simp] theorem up_ne_down :
    TravelStatus.DIRECTION_UP ≠ TravelStatus.DIRECTION_DOWN := by decide

@[simp] theorem up_ne_stopped :
    TravelStatus.DIRECTION_UP ≠ TravelStatus.STOPPED := by decide

@[simp] theorem down_ne_up :
    TravelStatus.DIRECTION_DOWN ≠ TravelStatus.DIRECTION_UP := by decide

@[simp] theorem down_ne_stopped :
    TravelStatus.DIRECTION_DOWN ≠ TravelStatus.STOPPED := by decide

@[simp] theorem stopped_ne_up :
    TravelStatus.STOPPED ≠ TravelStatus.DIRECTION_UP := by decide

@[simp] theorem stopped_ne_down :
    TravelStatus.STOPPED ≠ TravelStatus.DIRECTION_DOWN := by decide

@[simp] theorem unknown_ne_calculated :
    PositionType.UNKNOWN ≠ PositionType.CALCULATED := by decide

@[simp] theorem confirmed_ne_calculated :
    PositionType.CONFIRMED ≠ PositionType.CALCULATED := by decide

@[simp] theorem calculated_ne_confirmed :
    PositionType.CALCULATED ≠ PositionType.CONFIRMED := by decide

structure TravelCalculator where
  position_type : PositionType
  last_known_position : ℚ
  travel_time_down : Option ℚ
  travel_time_up : Option ℚ
  travel_to_position : ℚ
  travel_started_time : ℚ
  travel_direction : TravelStatus
  position_closed : ℚ
  position_open : ℚ
  segments_up : List (ℚ × ℚ)
  segments_down : List (ℚ × ℚ)
deriving DecidableEq, Repr

/-- One arm of the `segments/travel_time` fallback in `__init__`:
`segments` if given, else the single segment `(100, travel_time)`,
else a `ValueError`. -/
def mkSegments (segments : Option (List (ℚ × ℚ))) (travel_time : Option ℚ)
    (msg : String) : Except String (List (ℚ × ℚ)) :=
  match segments, travel_time with
  | some s, _ => Except.ok s
  | none, some t => Except.ok [((100 : ℚ), t)]
  | none, none => Except.error msg

/-- `TravelCalculator.__init__`. -/
def TravelCalculator.init (travel_time_down travel_time_up : Option ℚ)
    (segments_up segments_down : Option (List (ℚ × ℚ))) :
    Except String TravelCalculator :=
  match mkSegments segments_up travel_time_up
          "Either segments_up or travel_time_up must be provided",
        mkSegments segments_down travel_time_down
          "Either segments_down or travel_time_down must be provided" with
  | Except.ok su, Except.ok sd =>
    Except.ok
      { position_type := PositionType.UNKNOWN
        last_known_position := 0
        travel_time_down := travel_time_down
        travel_time_up := travel_time_up
        travel_to_position := 0
        travel_started_time := 0
        travel_direction := TravelStatus.STOPPED
        position_closed := 0
        position_open := 100
        segments_up := su
        segments_down := sd }
  | Except.error m, _ => Except.error m
  | _, Except.error m => Except.error m

/-- `set_position`. -/
def TravelCalculator.set_position (tc : TravelCalculator) (position : ℚ) :
    TravelCalculator :=
  { tc with
    last_known_position := position
    travel_to_position := position
    position_type := PositionType.CONFIRMED }

/-- The inner closure `position_reached_or_exceeded` of `_calculate_position`. -/
def position_reached_or_exceeded (travel_direction : TravelStatus)
    (relative_position : ℚ) : Bool :=
  if 0 ≤ relative_position ∧ travel_direction = TravelStatus.DIRECTION_DOWN then
    true
  else if relative_position ≤ 0 ∧ travel_direction = TravelStatus.DIRECTION_UP then
    true
  else
    false

/-- The `segment_ranges` loop of `_calculate_traversed_segments`:
turns `[(seg_end, seg_time), ...]` into `[(prev_pos, seg_end, seg_time), ...]`. -/
def build_segment_ranges (prev_pos : ℚ) : List (ℚ × ℚ) → List (ℚ × ℚ × ℚ)
  | [] => []
  | (seg_end, seg_time) :: rest =>
    (prev_pos, seg_end, seg_time) :: build_segment_ranges seg_end rest

/-- The upward arm of the main loop of `_calculate_traversed_segments`. -/
def traverse_up (start_pos end_pos : ℚ) : List (ℚ × ℚ × ℚ) → List (ℚ × ℚ × ℚ)
  | [] => []
  | (seg_start, seg_end, seg_time) :: rest =>
    if seg_end ≤ start_pos then traverse_up start_pos end_pos rest
    else
      let actual_start := max seg_start start_pos
      let actual_end := min seg_end end_pos
      let here : List (ℚ × ℚ × ℚ) :=
        if actual_start < actual_end then
          [(actual_start, actual_end,
            seg_time * ((actual_end - actual_start) / (seg_end - seg_start)))]
        else []
      if end_pos ≤ seg_end then here
      else here ++ traverse_up start_pos end_pos rest

/-- The downward arm of the main loop of `_calculate_traversed_segments`
(the caller feeds it the reversed range list). -/
def traverse_down (start_pos end_pos : ℚ) : List (ℚ × ℚ × ℚ) → List (ℚ × ℚ × ℚ)
  | [] => []
  | (seg_start, seg_end, seg_time) :: rest =>
    if start_pos ≤ seg_start then traverse_down start_pos end_pos rest
    else
      let actual_start := min start_pos seg_end
      let actual_end := max end_pos seg_start
      let here : List (ℚ × ℚ × ℚ) :=
        if actual_end < actual_start then
          [(actual_start, actual_end,
            seg_time * ((actual_start - actual_end) / (seg_end - seg_start)))]
        else []
      if seg_start ≤ end_pos then here
      else here ++ traverse_down start_pos end_pos rest

/-- `_calculate_traversed_segments`. -/
def TravelCalculator.calculate_traversed_segments (tc : TravelCalculator)
    (segments : List (ℚ × ℚ)) (start_pos end_pos : ℚ) : List (ℚ × ℚ × ℚ) :=
  let segment_ranges := build_segment_ranges 0 segments
  if tc.travel_direction = TravelStatus.DIRECTION_UP then
    traverse_up start_pos end_pos segment_ranges
  else
    traverse_down start_pos end_pos segment_ranges.reverse

/-- The time-walk loop of `_position_from_time`; `none` models the
`ZeroDivisionError` raised when a traversed segment has zero duration. -/
def position_walk (elapsed_time : ℚ) :
    ℚ → ℚ → List (ℚ × ℚ × ℚ) → Option ℚ
  | _, current_pos, [] => some current_pos
  | time_accumulated, current_pos, (seg_start, seg_end, seg_duration) :: rest =>
    if elapsed_time ≤ time_accumulated + seg_duration then
      if seg_duration = 0 then none
      else
        some (seg_start + (seg_end - seg_start) *
          ((elapsed_time - time_accumulated) / seg_duration))
    else
      position_walk elapsed_time (time_accumulated + seg_duration) seg_end rest

/-- `_position_from_time`. -/
def TravelCalculator.position_from_time (tc : TravelCalculator)
    (elapsed_time : ℚ) : Option ℚ :=
  let segments :=
    if tc.travel_direction = TravelStatus.DIRECTION_UP then tc.segments_up
    else tc.segments_down
  match tc.calculate_traversed_segments segments
      tc.last_known_position tc.travel_to_position with
  | [] => some tc.last_known_position
  | traversed => position_walk elapsed_time 0 tc.last_known_position traversed

/-- Python `int(...)` applied to a rational: truncation toward zero. -/
def pyInt (q : ℚ) : ℚ :=
  if q < 0 then -((Int.floor (-q) : ℤ) : ℚ) else ((Int.floor q : ℤ) : ℚ)

/-- `_calculate_position`. -/
def TravelCalculator.calculate_position (tc : TravelCalculator) (now : ℚ) :
    Option ℚ :=
  let relative_position := tc.travel_to_position - tc.last_known_position
  if position_reached_or_exceeded tc.travel_direction relative_position then
    some tc.travel_to_position
  else
    let elapsed_time := now - tc.travel_started_time
    match tc.position_from_time elapsed_time with
    | none => none
    | some position =>
      if tc.travel_direction = TravelStatus.DIRECTION_UP then
        if tc.travel_to_position ≤ position then some tc.travel_to_position
        else some (pyInt position)
      else
        if position ≤ tc.travel_to_position then some tc.travel_to_position
        else some (pyInt position)

/-- `current_position`. -/
def TravelCalculator.current_position (tc : TravelCalculator) (now : ℚ) :
    Option ℚ :=
  if tc.position_type = PositionType.CALCULATED then tc.calculate_position now
  else some tc.last_known_position

/-- `stop`. -/
def TravelCalculator.stop (tc : TravelCalculator) (now : ℚ) :
    Option TravelCalculator :=
  (tc.current_position now).map fun p =>
    { tc with
      last_known_position := p
      travel_to_position := p
      position_type := PositionType.CALCULATED
      travel_direction := TravelStatus.STOPPED }

/-- `start_travel`. -/
def TravelCalculator.start_travel (tc : TravelCalculator)
    (now travel_to_position : ℚ) : Option TravelCalculator :=
  (tc.stop now).map fun tc1 =>
    { tc1 with
      travel_started_time := now
      travel_to_position := travel_to_position
      position_type := PositionType.CALCULATED
      travel_direction :=
        if tc1.last_known_position < travel_to_position then
          TravelStatus.DIRECTION_UP
        else TravelStatus.DIRECTION_DOWN }

/-- `start_travel_up`. -/
def TravelCalculator.start_travel_up (tc : TravelCalculator) (now : ℚ) :
    Option TravelCalculator :=
  tc.start_travel now tc.position_open

/-- `start_travel_down`. -/
def TravelCalculator.start_travel_down (tc : TravelCalculator) (now : ℚ) :
    Option TravelCalculator :=
  tc.start_travel now tc.position_closed

/-- `is_traveling`. -/
def TravelCalculator.is_traveling (tc : TravelCalculator) (now : ℚ) :
    Option Bool :=
  (tc.current_position now).map fun p => decide (p ≠ tc.travel_to_position)

/-- `position_reached`. -/
def TravelCalculator.position_reached (tc : TravelCalculator) (now : ℚ) :
    Option Bool :=
  (tc.current_position now).map fun p =>
    if tc.travel_direction = TravelStatus.DIRECTION_UP then
      decide (tc.travel_to_position ≤ p)
    else if tc.travel_direction = TravelStatus.DIRECTION_DOWN then
      decide (p ≤ tc.travel_to_position)
    else
      decide (p = tc.travel_to_position)

/-- `is_open`. -/
def TravelCalculator.is_open (tc : TravelCalculator) (now : ℚ) : Option Bool :=
  (tc.current_position now).map fun p => decide (p = tc.position_open)

/-- `is_closed`. -/
def TravelCalculator.is_closed (tc : TravelCalculator) (now : ℚ) : Option Bool :=
  (tc.current_position now).map fun p => decide (p = tc.position_closed)

/-- The traversed-segment list that `_position_from_time` computes for the
current state. -/
def TravelCalculator.traversedSegments (tc : TravelCalculator) :
    List (ℚ × ℚ × ℚ) :=
  tc.calculate_traversed_segments
    (if tc.travel_direction = TravelStatus.DIRECTION_UP then tc.segments_up
     else tc.segments_down)
    tc.last_known_position tc.travel_to_position

/-- Total duration of a traversed-segment list. -/
def sumDur (l : List (ℚ × ℚ × ℚ)) : ℚ := (l.map fun r => r.2.2).sum

/-- Total summed duration of the sub-ranges traversed between
`last_known_position` and `travel_to_position`. -/
def TravelCalculator.totalDuration (tc : TravelCalculator) : ℚ :=
  sumDur tc.traversedSegments

/-- C1: for a cover constructed with upward profile segments
`[(50, 10), (100, 40)]` and a confirmed start position of `0`, after
`start_travel` to `100` at time `0`, `current_position()` returns `25` at
elapsed time `5`, `50` at elapsed time `10`, and `75` at elapsed time `30`. -/
theorem claim1_multi_segment_interpolation :
    ((TravelCalculator.init (some 100) none (some [(50, 10), (100, 40)]) none).toOption.bind
      fun tc => (tc.set_position 0).start_travel 0 100).map
      (fun t => (t.current_position 5, t.current_position 10, t.current_position 30)) =
    some (some 25, some 50, some 75) := by
  norm_num [TravelCalculator.init, mkSegments, TravelCalculator.set_position,
    TravelCalculator.start_travel, TravelCalculator.stop, TravelCalculator.current_position,
    TravelCalculator.calculate_position, TravelCalculator.position_from_time,
    TravelCalculator.calculate_traversed_segments, build_segment_ranges,
    traverse_up, traverse_down, position_walk, position_reached_or_exceeded, pyInt,
    Except.toOption, Option.bind, Option.map] <;> decide

/-- C2: for a cover with single-segment profiles of total time `100` in both
directions and a confirmed position of `90`, after `start_travel(60)` at
time `0`, `current_position()` returns `80`, `70`, `60` at elapsed times
`10`, `20`, `30`, and at `30` `position_reached()` is true. -/
theorem claim2_single_segment_down_travel :
    ((TravelCalculator.init (some 100) (some 100) none none).toOption.bind
      fun tc => (tc.set_position 90).start_travel 0 60).map
      (fun t => (t.current_position 10, t.current_position 20, t.current_position 30,
        t.position_reached 30)) =
    some (some 80, some 70, some 60, some true) := by
  norm_num [TravelCalculator.init, mkSegments, TravelCalculator.set_position,
    TravelCalculator.start_travel, TravelCalculator.stop, TravelCalculator.current_position,
    TravelCalculator.calculate_position, TravelCalculator.position_from_time,
    TravelCalculator.calculate_traversed_segments, build_segment_ranges,
    traverse_up, traverse_down, position_walk, position_reached_or_exceeded, pyInt,
    TravelCalculator.position_reached,
    Except.toOption, Option.bind, Option.map] <;> decide

/-- C3 counterexample: a reachable state with `position_type = CALCULATED`,
direction `DOWN` and `travel_to_position - last_known_position = -30 ≤ 0`
(the claim's trigger) for which `current_position()` does **not** return
`travel_to_position`: the code interpolates (returning `80`), because the
actual early-exit condition in the source is `relative_position >= 0` for
`DOWN` (and `<= 0` for `UP`), the mirror image of the claim. -/
theorem claim3_counterexample :
    ∃ tc : TravelCalculator,
      ((TravelCalculator.init (some 100) (some 100) none none).toOption.bind
        fun t => (t.set_position 90).start_travel 0 60) = some tc ∧
      tc.position_type = PositionType.CALCULATED ∧
      tc.travel_direction = TravelStatus.DIRECTION_DOWN ∧
      tc.travel_to_position - tc.last_known_position ≤ 0 ∧
      tc.current_position 10 ≠ some tc.travel_to_position := by
  refine ⟨{ position_type := PositionType.CALCULATED
            last_known_position := 90
            travel_time_down := some 100
            travel_time_up := some 100
            travel_to_position := 60
            travel_started_time := 0
            travel_direction := TravelStatus.DIRECTION_DOWN
            position_closed := 0
            position_open := 100
            segments_up := [(100, 100)]
            segments_down := [(100, 100)] }, ?_, rfl, rfl, by norm_num, ?_⟩
  · norm_num [TravelCalculator.init, mkSegments, TravelCalculator.set_position,
      TravelCalculator.start_travel, TravelCalculator.stop, TravelCalculator.current_position,
      TravelCalculator.calculate_position, TravelCalculator.position_from_time,
      TravelCalculator.calculate_traversed_segments, build_segment_ranges,
      traverse_up, traverse_down, position_walk, position_reached_or_exceeded, pyInt,
      Except.toOption, Option.bind, Option.map] <;> decide
  · norm_num [TravelCalculator.current_position,
      TravelCalculator.calculate_position, TravelCalculator.position_from_time,
      TravelCalculator.calculate_traversed_segments, build_segment_ranges,
      traverse_up, traverse_down, position_walk, position_reached_or_exceeded, pyInt] <;>
      decide

/-- C9 counterexample: construction accepts a flat `travel_time_up = 0`
(a direction supplied with a flat travel time), the runtime positions used
are all inside `[0, 100]`, yet `current_position()` right after
`start_travel(100)` raises `ZeroDivisionError` (modelled as `none`). -/
theorem claim9_counterexample :
    (((TravelCalculator.init (some 1) (some 0) none none).toOption.bind
      fun tc => (tc.set_position 0).start_travel 0 100).bind
      fun t => t.current_position 0) = none ∧
    ∃ tc, TravelCalculator.init (some 1) (some 0) none none = Except.ok tc := by
  constructor
  · norm_num [TravelCalculator.init, mkSegments, TravelCalculator.set_position,
      TravelCalculator.start_travel, TravelCalculator.stop, TravelCalculator.current_position,
      TravelCalculator.calculate_position, TravelCalculator.position_from_time,
      TravelCalculator.calculate_traversed_segments, build_segment_ranges,
      traverse_up, traverse_down, position_walk, position_reached_or_exceeded, pyInt,
      Except.toOption, Option.bind, Option.map]
  · exact ⟨_, rfl⟩

/-- With `start_pos ≤ end_pos` the downward traversal collects nothing:
every segment is either skipped (`start_pos ≤ seg_start`) or clips to an
empty range and triggers the break. -/
theorem traverse_down_nil (start_pos end_pos : ℚ) (h : start_pos ≤ end_pos) :
    ∀ l : List (ℚ × ℚ × ℚ), traverse_down start_pos end_pos l = [] := by
  intro l
  induction l with
  | nil => rfl
  | cons hd tl ih =>
    obtain ⟨s, e, t⟩ := hd
    by_cases hss : start_pos ≤ s
    · simp only [traverse_down, if_pos hss]
      exact ih
    · have h1 : ¬ (max end_pos s < min start_pos e) :=
        not_lt.mpr ((min_le_left _ _).trans (h.trans (le_max_left _ _)))
      have h2 : s ≤ end_pos := ((lt_of_not_le hss).le).trans h
      have h3 : ¬ end_pos < start_pos := not_lt.mpr h
      simp [traverse_down, hss, h1, h2, h3]

/-- A stopped, self-targeted, calculated state reports its frozen position. -/
theorem current_position_of_stopped (tc : TravelCalculator) (now : ℚ)
    (hpt : tc.position_type = PositionType.CALCULATED)
    (hdir : tc.travel_direction = TravelStatus.STOPPED)
    (heq : tc.travel_to_position = tc.last_known_position) :
    tc.current_position now = some tc.last_known_position := by
  simp [TravelCalculator.current_position, hpt, TravelCalculator.calculate_position,
    position_reached_or_exceeded, hdir, heq, TravelCalculator.position_from_time,
    TravelCalculator.calculate_traversed_segments, traverse_down_nil _ _ (le_refl _)]

/-- `stop` on a stopped, self-targeted, calculated state is the identity. -/
theorem stop_of_stopped_fixed (tc : TravelCalculator) (now : ℚ)
    (hpt : tc.position_type = PositionType.CALCULATED)
    (hdir : tc.travel_direction = TravelStatus.STOPPED)
    (heq : tc.travel_to_position = tc.last_known_position) :
    tc.stop now = some tc := by
  rw [TravelCalculator.stop, current_position_of_stopped tc now hpt hdir heq,
    Option.map_some']
  cases tc
  simp_all

/-- C6: for every state and every behaviour of the time source, a second
`stop()` leaves the state produced by a first `stop()` entirely unchanged
(in particular `last_known_position` is identical both times). -/
theorem claim6_stop_idempotent (tc : TravelCalculator) (now now' : ℚ)
    (tc1 : TravelCalculator) (h : tc.stop now = some tc1) :
    tc1.stop now' = some tc1 := by
  rw [TravelCalculator.stop] at h
  obtain ⟨p, hp, rfl⟩ := Option.map_eq_some'.mp h
  exact stop_of_stopped_fixed _ _ rfl rfl rfl

/-- Witness for C6 at a concrete state and concrete times. -/
theorem claim6_stop_idempotent_witness :
    (⟨PositionType.CALCULATED, 50, some 100, some 100, 50, 0, TravelStatus.STOPPED,
      0, 100, [(100, 100)], [(100, 100)]⟩ : TravelCalculator).stop 7 =
    some ⟨PositionType.CALCULATED, 50, some 100, some 100, 50, 0, TravelStatus.STOPPED,
      0, 100, [(100, 100)], [(100, 100)]⟩ :=
  claim6_stop_idempotent
    ⟨PositionType.CONFIRMED, 50, some 100, some 100, 50, 0, TravelStatus.STOPPED,
      0, 100, [(100, 100)], [(100, 100)]⟩ 0 7
    ⟨PositionType.CALCULATED, 50, some 100, some 100, 50, 0, TravelStatus.STOPPED,
      0, 100, [(100, 100)], [(100, 100)]⟩ rfl

/-- C3 (amended): the early exit fires when the signed difference
`travel_to_position - last_known_position` is non-NEGATIVE while the
direction is `DOWN`, or non-POSITIVE while the direction is `UP`; then
`current_position()` returns `travel_to_position` for every value of the
time source (the inequalities are the mirror image of the claim as stated). -/
theorem claim3_amended_early_exit (tc : TravelCalculator) (now : ℚ)
    (hpt : tc.position_type = PositionType.CALCULATED)
    (h : (0 ≤ tc.travel_to_position - tc.last_known_position ∧
            tc.travel_direction = TravelStatus.DIRECTION_DOWN) ∨
         (tc.travel_to_position - tc.last_known_position ≤ 0 ∧
            tc.travel_direction = TravelStatus.DIRECTION_UP)) :
    tc.current_position now = some tc.travel_to_position := by
  have hb : position_reached_or_exceeded tc.travel_direction
      (tc.travel_to_position - tc.last_known_position) = true := by
    rcases h with ⟨h1, h2⟩ | ⟨h1, h2⟩ <;> simp [position_reached_or_exceeded, h1, h2]
  simp [TravelCalculator.current_position, hpt, TravelCalculator.calculate_position, hb]

/-- Witness for the amended C3: direction `DOWN` with the target 20 above the
start returns the target at once. -/
theorem claim3_amended_witness :
    (⟨PositionType.CALCULATED, 50, some 100, some 100, 70, 0,
      TravelStatus.DIRECTION_DOWN, 0, 100, [(100, 100)], [(100, 100)]⟩ :
      TravelCalculator).current_position 3 = some 70 :=
  claim3_amended_early_exit
    ⟨PositionType.CALCULATED, 50, some 100, some 100, 70, 0,
      TravelStatus.DIRECTION_DOWN, 0, 100, [(100, 100)], [(100, 100)]⟩ 3 rfl
    (Or.inl ⟨by norm_num, rfl⟩)

/-- C7: starting a travel whose target equals the frozen
`last_known_position` yields direction `DOWN`, and `is_traveling()` queried
immediately afterwards returns `false`. -/
theorem claim7_equal_target_selects_down (tc : TravelCalculator) (now : ℚ)
    (tc1 : TravelCalculator) (h : tc.stop now = some tc1) :
    ∃ tc2, tc.start_travel now tc1.last_known_position = some tc2 ∧
      tc2.travel_direction = TravelStatus.DIRECTION_DOWN ∧
      tc2.is_traveling now = some false := by
  refine ⟨_, by rw [TravelCalculator.start_travel, h, Option.map_some'], ?_, ?_⟩
  · simp
  · simp [TravelCalculator.is_traveling, TravelCalculator.current_position,
      TravelCalculator.calculate_position, position_reached_or_exceeded]

/-- Witness for C7 at a concrete state and time. -/
theorem claim7_witness :
    ∃ tc2, (⟨PositionType.CONFIRMED, 50, some 100, some 100, 50, 0,
        TravelStatus.STOPPED, 0, 100, [(100, 100)], [(100, 100)]⟩ :
        TravelCalculator).start_travel 0 50 = some tc2 ∧
      tc2.travel_direction = TravelStatus.DIRECTION_DOWN ∧
      tc2.is_traveling 0 = some false :=
  claim7_equal_target_selects_down
    ⟨PositionType.CONFIRMED, 50, some 100, some 100, 50, 0,
      TravelStatus.STOPPED, 0, 100, [(100, 100)], [(100, 100)]⟩ 0
    ⟨PositionType.CALCULATED, 50, some 100, some 100, 50, 0,
      TravelStatus.STOPPED, 0, 100, [(100, 100)], [(100, 100)]⟩ rfl

/-- C8: construction fails (with an error) iff some direction is given
neither an explicit segment list nor a flat total travel time; a direction
given only a flat total time gets the single segment `(100, total_time)`. -/
theorem claim8_construction (travel_time_down travel_time_up : Option ℚ)
    (segments_up segments_down : Option (List (ℚ × ℚ))) :
    ((∃ msg, TravelCalculator.init travel_time_down travel_time_up
        segments_up segments_down = Except.error msg) ↔
      (segments_up = none ∧ travel_time_up = none) ∨
      (segments_down = none ∧ travel_time_down = none)) ∧
    (∀ t : ℚ, segments_up = none → travel_time_up = some t →
      ∀ tc, TravelCalculator.init travel_time_down travel_time_up
          segments_up segments_down = Except.ok tc → tc.segments_up = [(100, t)]) ∧
    (∀ t : ℚ, segments_down = none → travel_time_down = some t →
      ∀ tc, TravelCalculator.init travel_time_down travel_time_up
          segments_up segments_down = Except.ok tc → tc.segments_down = [(100, t)]) := by
  obtain _ | su := segments_up <;> obtain _ | sd := segments_down <;>
    obtain _ | tu := travel_time_up <;> obtain _ | td := travel_time_down <;>
    simp [TravelCalculator.init, mkSegments]

/-- Witness for C8: a missing up-profile is rejected; a flat up time of `5`
is stored as the single segment `(100, 5)`. -/
theorem claim8_witness :
    (∃ msg, TravelCalculator.init none (some 5) none none = Except.error msg) ∧
    (⟨PositionType.UNKNOWN, 0, some 3, some 5, 0, 0, TravelStatus.STOPPED, 0, 100,
      [(100, 5)], [(100, 3)]⟩ : TravelCalculator).segments_up = [(100, 5)] :=
  ⟨(claim8_construction none (some 5) none none).1.mpr (Or.inr ⟨rfl, rfl⟩),
   (claim8_construction (some 3) (some 5) none none).2.1 5 rfl rfl
     ⟨PositionType.UNKNOWN, 0, some 3, some 5, 0, 0, TravelStatus.STOPPED, 0, 100,
       [(100, 5)], [(100, 3)]⟩ rfl⟩

/-- The clipped sub-range (`here` in the source) appended by the upward arm. -/
def hereUp (start_pos end_pos s e t : ℚ) : List (ℚ × ℚ × ℚ) :=
  if max s start_pos < min e end_pos then
    [(max s start_pos, min e end_pos,
      t * ((min e end_pos - max s start_pos) / (e - s)))]
  else []

/-- The clipped sub-range appended by the downward arm. -/
def hereDown (start_pos end_pos s e t : ℚ) : List (ℚ × ℚ × ℚ) :=
  if max end_pos s < min start_pos e then
    [(min start_pos e, max end_pos s,
      t * ((min start_pos e - max end_pos s) / (e - s)))]
  else []

theorem traverse_up_cons (start_pos end_pos s e t : ℚ)
    (rest : List (ℚ × ℚ × ℚ)) :
    traverse_up start_pos end_pos ((s, e, t) :: rest) =
      if e ≤ start_pos then traverse_up start_pos end_pos rest
      else if end_pos ≤ e then hereUp start_pos end_pos s e t
      else hereUp start_pos end_pos s e t ++ traverse_up start_pos end_pos rest :=
  rfl

theorem traverse_down_cons (start_pos end_pos s e t : ℚ)
    (rest : List (ℚ × ℚ × ℚ)) :
    traverse_down start_pos end_pos ((s, e, t) :: rest) =
      if start_pos ≤ s then traverse_down start_pos end_pos rest
      else if s ≤ end_pos then hereDown start_pos end_pos s e t
      else hereDown start_pos end_pos s e t ++ traverse_down start_pos end_pos rest :=
  rfl

theorem mem_hereUp {start_pos end_pos s e t : ℚ} {r : ℚ × ℚ × ℚ}
    (hr : r ∈ hereUp start_pos end_pos s e t) :
    max s start_pos < min e end_pos ∧
      r = (max s start_pos, min e end_pos,
        t * ((min e end_pos - max s start_pos) / (e - s))) := by
  by_cases h : max s start_pos < min e end_pos
  · rw [hereUp, if_pos h] at hr
    exact ⟨h, List.mem_singleton.mp hr⟩
  · rw [hereUp, if_neg h] at hr
    exact absurd hr (List.not_mem_nil r)

theorem mem_hereDown {start_pos end_pos s e t : ℚ} {r : ℚ × ℚ × ℚ}
    (hr : r ∈ hereDown start_pos end_pos s e t) :
    max end_pos s < min start_pos e ∧
      r = (min start_pos e, max end_pos s,
        t * ((min start_pos e - max end_pos s) / (e - s))) := by
  by_cases h : max end_pos s < min start_pos e
  · rw [hereDown, if_pos h] at hr
    exact ⟨h, List.mem_singleton.mp hr⟩
  · rw [hereDown, if_neg h] at hr
    exact absurd hr (List.not_mem_nil r)

/-- Every sub-range clipped by the upward arm inherits a positive duration
from a positive segment duration: the clip guard forces both the clipped
span and the original span to be positive. -/
theorem traverse_up_time_pos (start_pos end_pos : ℚ) :
    ∀ l : List (ℚ × ℚ × ℚ), (∀ r ∈ l, 0 < r.2.2) →
      ∀ r ∈ traverse_up start_pos end_pos l, 0 < r.2.2 := by
  intro l
  induction l with
  | nil => intro _ r hr; exact absurd hr (List.not_mem_nil r)
  | cons hd tl ih =>
    obtain ⟨s, e, t⟩ := hd
    intro hpos r hr
    have hpt : 0 < t := hpos (s, e, t) (List.mem_cons_self _ _)
    have htl : ∀ x ∈ tl, 0 < x.2.2 := fun x hx => hpos x (List.mem_cons_of_mem _ hx)
    have hhere : ∀ x ∈ hereUp start_pos end_pos s e t, 0 < x.2.2 := by
      intro x hx
      obtain ⟨hlt, rfl⟩ := mem_hereUp hx
      have hse : s < e :=
        lt_of_le_of_lt (le_max_left s start_pos) (lt_of_lt_of_le hlt (min_le_left e end_pos))
      exact mul_pos hpt (div_pos (sub_pos.mpr hlt) (sub_pos.mpr hse))
    rw [traverse_up_cons] at hr
    by_cases h1 : e ≤ start_pos
    · rw [if_pos h1] at hr
      exact ih htl r hr
    · rw [if_neg h1] at hr
      by_cases h2 : end_pos ≤ e
      · rw [if_pos h2] at hr
        exact hhere r hr
      · rw [if_neg h2] at hr
        rcases List.mem_append.mp hr with hr | hr
        · exact hhere r hr
        · exact ih htl r hr

/-- Downward analogue of `traverse_up_time_pos`. -/
theorem traverse_down_time_pos (start_pos end_pos : ℚ) :
    ∀ l : List (ℚ × ℚ × ℚ), (∀ r ∈ l, 0 < r.2.2) →
      ∀ r ∈ traverse_down start_pos end_pos l, 0 < r.2.2 := by
  intro l
  induction l with
  | nil => intro _ r hr; exact absurd hr (List.not_mem_nil r)
  | cons hd tl ih =>
    obtain ⟨s, e, t⟩ := hd
    intro hpos r hr
    have hpt : 0 < t := hpos (s, e, t) (List.mem_cons_self _ _)
    have htl : ∀ x ∈ tl, 0 < x.2.2 := fun x hx => hpos x (List.mem_cons_of_mem _ hx)
    have hhere : ∀ x ∈ hereDown start_pos end_pos s e t, 0 < x.2.2 := by
      intro x hx
      obtain ⟨hlt, rfl⟩ := mem_hereDown hx
      have hse : s < e :=
        lt_of_le_of_lt (le_max_right end_pos s) (lt_of_lt_of_le hlt (min_le_right start_pos e))
      exact mul_pos hpt (div_pos (sub_pos.mpr hlt) (sub_pos.mpr hse))
    rw [traverse_down_cons] at hr
    by_cases h1 : start_pos ≤ s
    · rw [if_pos h1] at hr
      exact ih htl r hr
    · rw [if_neg h1] at hr
      by_cases h2 : s ≤ end_pos
      · rw [if_pos h2] at hr
        exact hhere r hr
      · rw [if_neg h2] at hr
        rcases List.mem_append.mp hr with hr | hr
        · exact hhere r hr
        · exact ih htl r hr

/-- `build_segment_ranges` copies the segment durations unchanged. -/
theorem build_segment_ranges_time_pos (segs : List (ℚ × ℚ))
    (hpos : ∀ x ∈ segs, 0 < x.2) :
    ∀ prev, ∀ r ∈ build_segment_ranges prev segs, 0 < r.2.2 := by
  induction segs with
  | nil => intro prev r hr; exact absurd hr (List.not_mem_nil r)
  | cons hd tl ih =>
    obtain ⟨e, t⟩ := hd
    intro prev r hr
    rw [build_segment_ranges] at hr
    rcases List.mem_cons.mp hr with rfl | hr
    · exact hpos (e, t) (List.mem_cons_self _ _)
    · exact ih (fun x hx => hpos x (List.mem_cons_of_mem _ hx)) e r hr

/-- The time walk cannot raise when every traversed duration is nonzero. -/
theorem position_walk_isSome (elapsed_time : ℚ) :
    ∀ (l : List (ℚ × ℚ × ℚ)) (acc cur : ℚ), (∀ r ∈ l, r.2.2 ≠ 0) →
      (position_walk elapsed_time acc cur l).isSome = true := by
  intro l
  induction l with
  | nil => intro acc cur _; rfl
  | cons hd tl ih =>
    obtain ⟨s, e, t⟩ := hd
    intro acc cur hnz
    rw [position_walk]
    by_cases h1 : elapsed_time ≤ acc + t
    · rw [if_pos h1, if_neg (hnz (s, e, t) (List.mem_cons_self _ _))]
      rfl
    · rw [if_neg h1]
      exact ih (acc + t) e (fun x hx => hnz x (List.mem_cons_of_mem _ hx))

/-- Positive durations everywhere in the state's traversed list. -/
theorem traversedSegments_time_pos (tc : TravelCalculator)
    (hu : ∀ x ∈ tc.segments_up, 0 < x.2) (hd : ∀ x ∈ tc.segments_down, 0 < x.2) :
    ∀ r ∈ tc.traversedSegments, 0 < r.2.2 := by
  intro r hr
  rw [TravelCalculator.traversedSegments,
    TravelCalculator.calculate_traversed_segments] at hr
  by_cases hdir : tc.travel_direction = TravelStatus.DIRECTION_UP
  · rw [if_pos hdir] at hr
    simp only [hdir, if_pos] at hr
    exact traverse_up_time_pos _ _ _
      (build_segment_ranges_time_pos tc.segments_up hu 0) r (by simpa using hr)
  · rw [if_neg hdir] at hr
    simp only [hdir, if_neg] at hr
    refine traverse_down_time_pos _ _ _ ?_ r (by simpa [hdir] using hr)
    intro x hx
    exact build_segment_ranges_time_pos tc.segments_down hd 0 x (List.mem_reverse.mp hx)

/-- `_position_from_time` is the time walk over the traversed list (the
explicit empty-list early return coincides with the walk on `[]`). -/
theorem position_from_time_eq (tc : TravelCalculator) (e : ℚ) :
    tc.position_from_time e =
      position_walk e 0 tc.last_known_position tc.traversedSegments := by
  cases hl : tc.calculate_traversed_segments
      (if tc.travel_direction = TravelStatus.DIRECTION_UP then tc.segments_up
       else tc.segments_down) tc.last_known_position tc.travel_to_position with
  | nil =>
    simp only [TravelCalculator.position_from_time,
      TravelCalculator.traversedSegments, hl]
    rfl
  | cons hd tl =>
    simp only [TravelCalculator.position_from_time,
      TravelCalculator.traversedSegments, hl]

/-- `_calculate_position` written via the walk over `traversedSegments`. -/
theorem calculate_position_eq (tc : TravelCalculator) (now : ℚ) :
    tc.calculate_position now =
      if position_reached_or_exceeded tc.travel_direction
          (tc.travel_to_position - tc.last_known_position) then
        some tc.travel_to_position
      else
        match position_walk (now - tc.travel_started_time) 0
            tc.last_known_position tc.traversedSegments with
        | none => none
        | some position =>
          if tc.travel_direction = TravelStatus.DIRECTION_UP then
            if tc.travel_to_position ≤ position then some tc.travel_to_position
            else some (pyInt position)
          else
            if position ≤ tc.travel_to_position then some tc.travel_to_position
            else some (pyInt position) := by
  simp only [TravelCalculator.calculate_position]
  rw [position_from_time_eq]

/-- `current_position` cannot raise when all segment durations are positive. -/
theorem current_position_isSome (tc : TravelCalculator) (now : ℚ)
    (hu : ∀ x ∈ tc.segments_up, 0 < x.2) (hd : ∀ x ∈ tc.segments_down, 0 < x.2) :
    (tc.current_position now).isSome = true := by
  rw [TravelCalculator.current_position]
  split
  · rw [calculate_position_eq]
    split
    · rfl
    · have hw := position_walk_isSome (now - tc.travel_started_time)
        tc.traversedSegments 0 tc.last_known_position
        (fun r hr => ne_of_gt (traversedSegments_time_pos tc hu hd r hr))
      obtain ⟨p, hp⟩ := Option.isSome_iff_exists.mp hw
      simp only [hp]
      split <;> split <;> rfl
  · rfl

/-- C9 (amended): if every segment duration in both profiles is positive
(in particular whenever each direction is configured with a positive flat
travel time or positive-duration segments), then no runtime operation ever
raises, from any state and for any behaviour of the time source
(`set_position` is total by construction and needs no clause). -/
theorem claim9_amended_total (tc : TravelCalculator) (now p : ℚ)
    (hu : ∀ x ∈ tc.segments_up, 0 < x.2) (hd : ∀ x ∈ tc.segments_down, 0 < x.2) :
    (tc.current_position now).isSome = true ∧
    (tc.stop now).isSome = true ∧
    (tc.start_travel now p).isSome = true ∧
    (tc.is_traveling now).isSome = true ∧
    (tc.position_reached now).isSome = true ∧
    (tc.is_open now).isSome = true ∧
    (tc.is_closed now).isSome = true := by
  have hc := current_position_isSome tc now hu hd
  obtain ⟨q, hq⟩ := Option.isSome_iff_exists.mp hc
  have hstop : (tc.stop now).isSome = true := by
    rw [TravelCalculator.stop, hq]; rfl
  refine ⟨hc, hstop, ?_, ?_, ?_, ?_, ?_⟩
  · obtain ⟨tc1, h1⟩ := Option.isSome_iff_exists.mp hstop
    rw [TravelCalculator.start_travel, h1]; rfl
  · rw [TravelCalculator.is_traveling, hq]; rfl
  · rw [TravelCalculator.position_reached, hq]; rfl
  · rw [TravelCalculator.is_open, hq]; rfl
  · rw [TravelCalculator.is_closed, hq]; rfl

/-- Witness for the amended C9 at a concrete state. -/
theorem claim9_amended_witness :
    ((⟨PositionType.CALCULATED, 0, some 100, some 100, 100, 0,
      TravelStatus.DIRECTION_UP, 0, 100, [(100, 100)], [(100, 100)]⟩ :
      TravelCalculator).current_position 50).isSome = true :=
  (claim9_amended_total
    ⟨PositionType.CALCULATED, 0, some 100, some 100, 100, 0,
      TravelStatus.DIRECTION_UP, 0, 100, [(100, 100)], [(100, 100)]⟩ 50 50
    (by intro x hx; rw [List.mem_singleton] at hx; subst hx; norm_num)
    (by intro x hx; rw [List.mem_singleton] at hx; subst hx; norm_num)).1

/-- Well-formedness of a profile relative to a previous end position:
non-decreasing end positions, positive durations, final end position `100`
(the documented invariant of a segment list). -/
def validFrom (prev : ℚ) : List (ℚ × ℚ) → Prop
  | [] => prev = 100
  | (seg_end, seg_time) :: rest => prev ≤ seg_end ∧ 0 < seg_time ∧ validFrom seg_end rest

/-- A well-formed profile: ordered segments with positive durations covering
`0` to `100` (the implicit start of the whole profile is position `0`). -/
def ValidProfile (segments : List (ℚ × ℚ)) : Prop := validFrom 0 segments

instance instDecidableValidFrom : (prev : ℚ) → (l : List (ℚ × ℚ)) →
    Decidable (validFrom prev l)
  | prev, [] => inferInstanceAs (Decidable (prev = 100))
  | prev, (seg_end, seg_time) :: rest =>
    haveI := instDecidableValidFrom seg_end rest
    inferInstanceAs (Decidable (prev ≤ seg_end ∧ 0 < seg_time ∧ validFrom seg_end rest))

instance (segments : List (ℚ × ℚ)) : Decidable (ValidProfile segments) :=
  inferInstanceAs (Decidable (validFrom 0 segments))

/-- A range list that is consecutive from `p` to `q`, non-decreasing, with
positive durations: the shape of `build_segment_ranges` on a valid profile. -/
inductive ConsecFrom : ℚ → List (ℚ × ℚ × ℚ) → ℚ → Prop where
  | nil (p : ℚ) : ConsecFrom p [] p
  | cons {p e t q : ℚ} {rest : List (ℚ × ℚ × ℚ)} :
      p ≤ e → 0 < t → ConsecFrom e rest q → ConsecFrom p ((p, e, t) :: rest) q

/-- A range list consecutive from the top `q` down to `bot` when read in
order: the shape of the reversed range list fed to `traverse_down`. -/
inductive RevConsec : ℚ → List (ℚ × ℚ × ℚ) → ℚ → Prop where
  | nil (q : ℚ) : RevConsec q [] q
  | cons {q s t bot : ℚ} {rest : List (ℚ × ℚ × ℚ)} :
      s ≤ q → 0 < t → RevConsec s rest bot → RevConsec q ((s, q, t) :: rest) bot

/-- A strictly increasing traversed chain from `p` to `q` with positive
durations. -/
inductive ChainUp : ℚ → List (ℚ × ℚ × ℚ) → ℚ → Prop where
  | nil (p : ℚ) : ChainUp p [] p
  | cons {p e t q : ℚ} {rest : List (ℚ × ℚ × ℚ)} :
      p < e → 0 < t → ChainUp e rest q → ChainUp p ((p, e, t) :: rest) q

/-- A strictly decreasing traversed chain from `p` down to `q` with positive
durations. -/
inductive ChainDown : ℚ → List (ℚ × ℚ × ℚ) → ℚ → Prop where
  | nil (p : ℚ) : ChainDown p [] p
  | cons {p e t q : ℚ} {rest : List (ℚ × ℚ × ℚ)} :
      e < p → 0 < t → ChainDown e rest q → ChainDown p ((p, e, t) :: rest) q

theorem ChainUp.start_le {p : ℚ} {l : List (ℚ × ℚ × ℚ)} {q : ℚ}
    (h : ChainUp p l q) : p ≤ q := by
  induction h with
  | nil => exact le_refl _
  | cons hpe _ _ ih => exact le_trans hpe.le ih

theorem ChainDown.le_start {p : ℚ} {l : List (ℚ × ℚ × ℚ)} {q : ℚ}
    (h : ChainDown p l q) : q ≤ p := by
  induction h with
  | nil => exact le_refl _
  | cons hpe _ _ ih => exact le_trans ih hpe.le

theorem RevConsec.append {q : ℚ} {A : List (ℚ × ℚ × ℚ)} {m : ℚ}
    {B : List (ℚ × ℚ × ℚ)} {r : ℚ}
    (hA : RevConsec q A m) (hB : RevConsec m B r) : RevConsec q (A ++ B) r := by
  induction hA with
  | nil => exact hB
  | cons h1 h2 _ ih => exact RevConsec.cons h1 h2 (ih hB)

theorem ConsecFrom.rev {p : ℚ} {l : List (ℚ × ℚ × ℚ)} {q : ℚ}
    (h : ConsecFrom p l q) : RevConsec q l.reverse p := by
  induction h with
  | nil => exact RevConsec.nil _
  | cons hpe ht _ ih =>
    rw [List.reverse_cons]
    exact RevConsec.append ih (RevConsec.cons hpe ht (RevConsec.nil _))

theorem validFrom_consec :
    ∀ (segs : List (ℚ × ℚ)) (prev : ℚ), validFrom prev segs →
      ConsecFrom prev (build_segment_ranges prev segs) 100 := by
  intro segs
  induction segs with
  | nil =>
    intro prev h
    rw [validFrom] at h
    rw [build_segment_ranges, h]
    exact ConsecFrom.nil _
  | cons hd tl ih =>
    obtain ⟨e, t⟩ := hd
    intro prev h
    rw [validFrom] at h
    rw [build_segment_ranges]
    exact ConsecFrom.cons h.1 h.2.1 (ih e h.2.2)

@[simp] theorem sumDur_nil : sumDur [] = 0 := rfl

@[simp] theorem sumDur_cons (s e t : ℚ) (l : List (ℚ × ℚ × ℚ)) :
    sumDur ((s, e, t) :: l) = t + sumDur l := by
  simp [sumDur]

theorem ChainUp.sumDur_nonneg_up {p : ℚ} {l : List (ℚ × ℚ × ℚ)} {q : ℚ}
    (h : ChainUp p l q) : 0 ≤ sumDur l := by
  induction h with
  | nil => simp
  | cons _ ht _ ih => simp; linarith

theorem ChainDown.sumDur_nonneg_down {p : ℚ} {l : List (ℚ × ℚ × ℚ)} {q : ℚ}
    (h : ChainDown p l q) : 0 ≤ sumDur l := by
  induction h with
  | nil => simp
  | cons _ ht _ ih => simp; linarith

/-- Once past the start (`start_pos ≤ p`), the upward traversal of a
consecutive range list from `p` yields a strictly increasing chain from `p`
to `end_pos`. -/
theorem traverse_up_chain_in {p : ℚ} {l : List (ℚ × ℚ × ℚ)} {q : ℚ}
    (h : ConsecFrom p l q) :
    ∀ {start_pos end_pos : ℚ}, start_pos ≤ p → p < end_pos → end_pos ≤ q →
      ChainUp p (traverse_up start_pos end_pos l) end_pos := by
  induction h with
  | nil =>
    intro s e hsp hpe heq
    exact absurd hpe (not_lt.mpr heq)
  | cons hpe' hpt hrest ih =>
    rename_i p e' t q rest
    intro s e hsp hpe heq
    rw [traverse_up_cons]
    by_cases h1 : e' ≤ s
    · have hse : s ≤ e' := le_trans hsp hpe'
      have hpeq : p = e' := le_antisymm hpe' (le_trans h1 hsp)
      rw [if_pos h1, hpeq]
      exact ih hse (hpeq ▸ hpe) heq
    · rw [if_neg h1]
      by_cases h2 : e ≤ e'
      · rw [if_pos h2, hereUp, max_eq_left hsp, min_eq_right h2, if_pos hpe]
        exact ChainUp.cons hpe
          (mul_pos hpt (div_pos (sub_pos.mpr hpe)
            (sub_pos.mpr (lt_of_lt_of_le hpe h2))))
          (ChainUp.nil e)
      · have he'e : e' < e := lt_of_not_le h2
        rw [if_neg h2]
        rcases eq_or_lt_of_le hpe' with heq' | hlt'
        · subst heq'
          rw [hereUp, max_eq_left hsp, min_eq_left he'e.le, if_neg (lt_irrefl p),
            List.nil_append]
          exact ih hsp hpe heq
        · rw [hereUp, max_eq_left hsp, min_eq_left he'e.le, if_pos hlt',
            List.cons_append, List.nil_append]
          exact ChainUp.cons hlt'
            (mul_pos hpt (div_pos (sub_pos.mpr hlt') (sub_pos.mpr hlt')))
            (ih (le_of_lt (lt_of_le_of_lt hsp hlt')) he'e heq)

/-- Upward traversal of a consecutive range list covering
`[p, q] ⊇ [start_pos, end_pos]` yields a strictly increasing chain from
`start_pos` to `end_pos`. -/
theorem traverse_up_chain {p : ℚ} {l : List (ℚ × ℚ × ℚ)} {q : ℚ}
    (h : ConsecFrom p l q) :
    ∀ {start_pos end_pos : ℚ}, p ≤ start_pos → start_pos < end_pos → end_pos ≤ q →
      ChainUp start_pos (traverse_up start_pos end_pos l) end_pos := by
  induction h with
  | nil =>
    intro s e hps hse heq
    exact absurd (lt_of_lt_of_le hse heq) (not_lt.mpr hps)
  | cons hpe' hpt hrest ih =>
    rename_i p e' t q rest
    intro s e hps hse heq
    rw [traverse_up_cons]
    by_cases h1 : e' ≤ s
    · rw [if_pos h1]
      exact ih h1 hse heq
    · have hse' : s < e' := lt_of_not_le h1
      rw [if_neg h1]
      by_cases h2 : e ≤ e'
      · rw [if_pos h2, hereUp, max_eq_right hps, min_eq_right h2, if_pos hse]
        exact ChainUp.cons hse
          (mul_pos hpt (div_pos (sub_pos.mpr hse)
            (sub_pos.mpr (lt_of_le_of_lt hps (lt_of_lt_of_le hse h2)))))
          (ChainUp.nil e)
      · have he'e : e' < e := lt_of_not_le h2
        rw [if_neg h2, hereUp, max_eq_right hps, min_eq_left he'e.le, if_pos hse',
          List.cons_append, List.nil_append]
        exact ChainUp.cons hse'
          (mul_pos hpt (div_pos (sub_pos.mpr hse')
            (sub_pos.mpr (lt_of_le_of_lt hps hse'))))
          (traverse_up_chain_in hrest hse'.le he'e heq)

/-- Once past the start (`q ≤ start_pos` from above), the downward traversal
of a reversed consecutive range list from the top `q` yields a strictly
decreasing chain from `q` down to `end_pos`. -/
theorem traverse_down_chain_in {q : ℚ} {l : List (ℚ × ℚ × ℚ)} {bot : ℚ}
    (h : RevConsec q l bot) :
    ∀ {start_pos end_pos : ℚ}, end_pos < q → q ≤ start_pos → bot ≤ end_pos →
      ChainDown q (traverse_down start_pos end_pos l) end_pos := by
  induction h with
  | nil =>
    intro s e he hqs hbot
    exact absurd he (not_lt.mpr hbot)
  | cons hs'q hpt hrest ih =>
    rename_i q s' t bot rest
    intro s e he hqs hbot
    rw [traverse_down_cons]
    by_cases h1 : s ≤ s'
    · have hqeq : s' = q := le_antisymm hs'q (le_trans hqs h1)
      rw [if_pos h1, ← hqeq]
      exact ih (hqeq ▸ he) (hqeq ▸ hqs) hbot
    · have hs's : s' < s := lt_of_not_le h1
      rw [if_neg h1]
      by_cases h2 : s' ≤ e
      · rw [if_pos h2, hereDown, max_eq_left h2, min_eq_right hqs, if_pos he]
        exact ChainDown.cons he
          (mul_pos hpt (div_pos (sub_pos.mpr he)
            (sub_pos.mpr (lt_of_le_of_lt h2 he))))
          (ChainDown.nil e)
      · have hes' : e < s' := lt_of_not_le h2
        rw [if_neg h2]
        rcases eq_or_lt_of_le hs'q with heq' | hlt'
        · subst heq'
          rw [hereDown, max_eq_right hes'.le, min_eq_right hqs, if_neg (lt_irrefl s'),
            List.nil_append]
          exact ih he hqs hbot
        · rw [hereDown, max_eq_right hes'.le, min_eq_right hqs, if_pos hlt',
            List.cons_append, List.nil_append]
          exact ChainDown.cons hlt'
            (mul_pos hpt (div_pos (sub_pos.mpr hlt') (sub_pos.mpr hlt')))
            (ih hes' (le_trans hs'q hqs) hbot)

/-- Downward traversal of a reversed consecutive range list covering
`[bot, q] ⊇ [end_pos, start_pos]` yields a strictly decreasing chain from
`start_pos` down to `end_pos`. -/
theorem traverse_down_chain {q : ℚ} {l : List (ℚ × ℚ × ℚ)} {bot : ℚ}
    (h : RevConsec q l bot) :
    ∀ {start_pos end_pos : ℚ}, start_pos ≤ q → end_pos < start_pos → bot ≤ end_pos →
      ChainDown start_pos (traverse_down start_pos end_pos l) end_pos := by
  induction h with
  | nil =>
    intro s e hsq hes hbot
    exact absurd (lt_of_lt_of_le hes hsq) (not_lt.mpr hbot)
  | cons hs'q hpt hrest ih =>
    rename_i q s' t bot rest
    intro s e hsq hes hbot
    rw [traverse_down_cons]
    by_cases h1 : s ≤ s'
    · rw [if_pos h1]
      exact ih h1 hes hbot
    · have hs's : s' < s := lt_of_not_le h1
      rw [if_neg h1]
      by_cases h2 : s' ≤ e
      · rw [if_pos h2, hereDown, max_eq_left h2, min_eq_left hsq, if_pos hes]
        exact ChainDown.cons hes
          (mul_pos hpt (div_pos (sub_pos.mpr hes)
            (sub_pos.mpr (lt_of_le_of_lt h2 (lt_of_lt_of_le hes hsq)))))
          (ChainDown.nil e)
      · have hes' : e < s' := lt_of_not_le h2
        rw [if_neg h2, hereDown, max_eq_right hes'.le, min_eq_left hsq, if_pos hs's,
          List.cons_append, List.nil_append]
        exact ChainDown.cons hs's
          (mul_pos hpt (div_pos (sub_pos.mpr hs's)
            (sub_pos.mpr (lt_of_lt_of_le hs's hsq))))
          (traverse_down_chain_in hrest hes' hs's.le hbot)

/-- Over an increasing chain, the time walk never raises and its result
stays inside the chain's position interval whenever the elapsed time is at
least the accumulated time. -/
theorem position_walk_bounds_up {cur : ℚ} {l : List (ℚ × ℚ × ℚ)} {fin : ℚ}
    (h : ChainUp cur l fin) :
    ∀ {acc elapsed : ℚ}, acc ≤ elapsed →
      ∃ pos, position_walk elapsed acc cur l = some pos ∧
        cur ≤ pos ∧ pos ≤ fin := by
  induction h with
  | nil =>
    intro acc elapsed _
    exact ⟨_, rfl, le_refl _, le_refl _⟩
  | cons hce ht hrest ih =>
    rename_i cur e t fin rest
    intro acc elapsed hacc
    rw [position_walk]
    by_cases h1 : elapsed ≤ acc + t
    · rw [if_pos h1, if_neg (ne_of_gt ht)]
      have hr0 : 0 ≤ (elapsed - acc) / t :=
        div_nonneg (sub_nonneg.mpr hacc) ht.le
      have hr1 : (elapsed - acc) / t ≤ 1 :=
        (div_le_one ht).mpr (by linarith)
      have hu0 : 0 ≤ (e - cur) * ((elapsed - acc) / t) :=
        mul_nonneg (sub_nonneg.mpr hce.le) hr0
      have hu1 : (e - cur) * ((elapsed - acc) / t) ≤ (e - cur) * 1 :=
        mul_le_mul_of_nonneg_left hr1 (sub_nonneg.mpr hce.le)
      refine ⟨_, rfl, by linarith, ?_⟩
      have hef : e ≤ fin := hrest.start_le
      nlinarith
    · rw [if_neg h1]
      obtain ⟨pos, hw, hlo, hhi⟩ := ih (le_of_lt (lt_of_not_le h1))
      exact ⟨pos, hw, le_trans hce.le hlo, hhi⟩

/-- Downward analogue of `position_walk_bounds_up`. -/
theorem position_walk_bounds_down {cur : ℚ} {l : List (ℚ × ℚ × ℚ)} {fin : ℚ}
    (h : ChainDown cur l fin) :
    ∀ {acc elapsed : ℚ}, acc ≤ elapsed →
      ∃ pos, position_walk elapsed acc cur l = some pos ∧
        fin ≤ pos ∧ pos ≤ cur := by
  induction h with
  | nil =>
    intro acc elapsed _
    exact ⟨_, rfl, le_refl _, le_refl _⟩
  | cons hce ht hrest ih =>
    rename_i cur e t fin rest
    intro acc elapsed hacc
    rw [position_walk]
    by_cases h1 : elapsed ≤ acc + t
    · rw [if_pos h1, if_neg (ne_of_gt ht)]
      have hr0 : 0 ≤ (elapsed - acc) / t :=
        div_nonneg (sub_nonneg.mpr hacc) ht.le
      have hr1 : (elapsed - acc) / t ≤ 1 :=
        (div_le_one ht).mpr (by linarith)
      have hu0 : (e - cur) * ((elapsed - acc) / t) ≤ 0 :=
        mul_nonpos_of_nonpos_of_nonneg (sub_nonpos.mpr hce.le) hr0
      have hu1 : (e - cur) * 1 ≤ (e - cur) * ((elapsed - acc) / t) :=
        mul_le_mul_of_nonpos_left hr1 (sub_nonpos.mpr hce.le)
      refine ⟨_, rfl, ?_, by linarith⟩
      have hef : fin ≤ e := hrest.le_start
      nlinarith
    · rw [if_neg h1]
      obtain ⟨pos, hw, hlo, hhi⟩ := ih (le_of_lt (lt_of_not_le h1))
      exact ⟨pos, hw, hlo, le_trans hhi hce.le⟩

/-- Over an increasing chain, once the elapsed time reaches the total
duration the walk returns exactly the chain's final position. -/
theorem position_walk_total_up {cur : ℚ} {l : List (ℚ × ℚ × ℚ)} {fin : ℚ}
    (h : ChainUp cur l fin) :
    ∀ {acc elapsed : ℚ}, acc + sumDur l ≤ elapsed →
      position_walk elapsed acc cur l = some fin := by
  induction h with
  | nil => intro acc elapsed _; rfl
  | cons hce ht hrest ih =>
    rename_i cur e t fin rest
    intro acc elapsed htot
    rw [sumDur_cons] at htot
    rw [position_walk]
    by_cases h1 : elapsed ≤ acc + t
    · rw [if_pos h1, if_neg (ne_of_gt ht)]
      have hnn : 0 ≤ sumDur rest := hrest.sumDur_nonneg_up
      cases hrest with
      | nil =>
        simp only [sumDur_nil] at htot hnn
        have hel : elapsed = acc + t := le_antisymm h1 (by linarith)
        rw [hel, add_sub_cancel_left, div_self (ne_of_gt ht), mul_one]
        congr 1
        ring
      | cons hef htf hrf =>
        rename_i e2 t2 rest2
        exfalso
        have : 0 ≤ sumDur rest2 := hrf.sumDur_nonneg_up
        rw [sumDur_cons] at hnn htot
        linarith
    · rw [if_neg h1]
      exact ih (by linarith)

/-- Downward analogue of `position_walk_total_up`. -/
theorem position_walk_total_down {cur : ℚ} {l : List (ℚ × ℚ × ℚ)} {fin : ℚ}
    (h : ChainDown cur l fin) :
    ∀ {acc elapsed : ℚ}, acc + sumDur l ≤ elapsed →
      position_walk elapsed acc cur l = some fin := by
  induction h with
  | nil => intro acc elapsed _; rfl
  | cons hce ht hrest ih =>
    rename_i cur e t fin rest
    intro acc elapsed htot
    rw [sumDur_cons] at htot
    rw [position_walk]
    by_cases h1 : elapsed ≤ acc + t
    · rw [if_pos h1, if_neg (ne_of_gt ht)]
      have hnn : 0 ≤ sumDur rest := hrest.sumDur_nonneg_down
      cases hrest with
      | nil =>
        simp only [sumDur_nil] at htot hnn
        have hel : elapsed = acc + t := le_antisymm h1 (by linarith)
        rw [hel, add_sub_cancel_left, div_self (ne_of_gt ht), mul_one]
        congr 1
        ring
      | cons hef htf hrf =>
        rename_i e2 t2 rest2
        exfalso
        have : 0 ≤ sumDur rest2 := hrf.sumDur_nonneg_down
        rw [sumDur_cons] at hnn htot
        linarith
    · rw [if_neg h1]
      exact ih (by linarith)

theorem traversedSegments_up (tc : TravelCalculator)
    (hdir : tc.travel_direction = TravelStatus.DIRECTION_UP) :
    tc.traversedSegments =
      traverse_up tc.last_known_position tc.travel_to_position
        (build_segment_ranges 0 tc.segments_up) := by
  simp [TravelCalculator.traversedSegments,
    TravelCalculator.calculate_traversed_segments, hdir]

theorem traversedSegments_not_up (tc : TravelCalculator)
    (hdir : tc.travel_direction ≠ TravelStatus.DIRECTION_UP) :
    tc.traversedSegments =
      traverse_down tc.last_known_position tc.travel_to_position
        (build_segment_ranges 0 tc.segments_down).reverse := by
  simp [TravelCalculator.traversedSegments,
    TravelCalculator.calculate_traversed_segments, hdir]

theorem reached_false_up {rel : ℚ}
    (h : position_reached_or_exceeded TravelStatus.DIRECTION_UP rel = false) :
    0 < rel := by
  by_contra hc
  push_neg at hc
  simp [position_reached_or_exceeded, hc] at h

theorem reached_false_down {rel : ℚ}
    (h : position_reached_or_exceeded TravelStatus.DIRECTION_DOWN rel = false) :
    rel < 0 := by
  by_contra hc
  push_neg at hc
  simp [position_reached_or_exceeded, hc] at h

@[simp] theorem reached_stopped (rel : ℚ) :
    position_reached_or_exceeded TravelStatus.STOPPED rel = false := by
  simp [position_reached_or_exceeded]

/-- C5: for every calculated state travelling `UP` or `DOWN` over well-formed
profiles with positions in `[0, 100]`, any elapsed time at or beyond the
total summed duration of the traversed sub-ranges makes `current_position()`
return exactly `travel_to_position` — never a value past it. -/
theorem claim5_overshoot_clamp (tc : TravelCalculator) (now : ℚ)
    (hpt : tc.position_type = PositionType.CALCULATED)
    (hdir : tc.travel_direction = TravelStatus.DIRECTION_UP ∨
            tc.travel_direction = TravelStatus.DIRECTION_DOWN)
    (hvu : ValidProfile tc.segments_up) (hvd : ValidProfile tc.segments_down)
    (hl0 : 0 ≤ tc.last_known_position) (hl1 : tc.last_known_position ≤ 100)
    (ht0 : 0 ≤ tc.travel_to_position) (ht1 : tc.travel_to_position ≤ 100)
    (helap : tc.totalDuration ≤ now - tc.travel_started_time) :
    tc.current_position now = some tc.travel_to_position := by
  rw [TravelCalculator.current_position, if_pos hpt, calculate_position_eq]
  by_cases hb : position_reached_or_exceeded tc.travel_direction
      (tc.travel_to_position - tc.last_known_position) = true
  · rw [if_pos hb]
  · rw [if_neg hb]
    rw [Bool.not_eq_true] at hb
    rcases hdir with hdir | hdir
    · rw [hdir] at hb
      have hrel := reached_false_up hb
      have hlt : tc.last_known_position < tc.travel_to_position := by linarith
      have hchain : ChainUp tc.last_known_position tc.traversedSegments
          tc.travel_to_position := by
        rw [traversedSegments_up tc hdir]
        exact traverse_up_chain (validFrom_consec _ 0 hvu) hl0 hlt ht1
      have hwalk := position_walk_total_up hchain
        (show (0 : ℚ) + sumDur tc.traversedSegments ≤ now - tc.travel_started_time by
          rw [zero_add]; exact helap)
      simp only [hwalk]
      rw [if_pos hdir, if_pos (le_refl _)]
    · rw [hdir] at hb
      have hrel := reached_false_down hb
      have hlt : tc.travel_to_position < tc.last_known_position := by linarith
      have hchain : ChainDown tc.last_known_position tc.traversedSegments
          tc.travel_to_position := by
        rw [traversedSegments_not_up tc (by rw [hdir]; exact down_ne_up)]
        exact traverse_down_chain (validFrom_consec _ 0 hvd).rev hl1 hlt ht0
      have hwalk := position_walk_total_down hchain
        (show (0 : ℚ) + sumDur tc.traversedSegments ≤ now - tc.travel_started_time by
          rw [zero_add]; exact helap)
      simp only [hwalk]
      rw [if_neg (by rw [hdir]; exact down_ne_up), if_pos (le_refl _)]

/-- Witness for C5: the single-segment up travel from 0 to 100 over 100
seconds returns exactly 100 at elapsed time 150. -/
theorem claim5_witness :
    (⟨PositionType.CALCULATED, 0, some 100, some 100, 100, 0,
      TravelStatus.DIRECTION_UP, 0, 100, [(100, 100)], [(100, 100)]⟩ :
      TravelCalculator).current_position 150 = some 100 :=
  claim5_overshoot_clamp
    ⟨PositionType.CALCULATED, 0, some 100, some 100, 100, 0,
      TravelStatus.DIRECTION_UP, 0, 100, [(100, 100)], [(100, 100)]⟩ 150
    rfl (Or.inl rfl)
    (by norm_num [ValidProfile, validFrom])
    (by norm_num [ValidProfile, validFrom])
    (by norm_num) (by norm_num) (by norm_num) (by norm_num)
    (by norm_num [TravelCalculator.totalDuration, TravelCalculator.traversedSegments,
      TravelCalculator.calculate_traversed_segments, build_segment_ranges,
      traverse_up, traverse_down, sumDur])

theorem pyInt_of_nonneg {q : ℚ} (h : 0 ≤ q) :
    pyInt q = ((Int.floor q : ℤ) : ℚ) :=
  if_neg (not_lt.mpr h)

theorem pyInt_le_self {q : ℚ} (h : 0 ≤ q) : pyInt q ≤ q := by
  rw [pyInt_of_nonneg h]
  exact_mod_cast Int.floor_le q

theorem le_pyInt {a : ℤ} {q : ℚ} (hq : 0 ≤ q) (h : (a : ℚ) ≤ q) :
    (a : ℚ) ≤ pyInt q := by
  rw [pyInt_of_nonneg hq]
  exact_mod_cast Int.le_floor.mpr h

/-- C10: for well-formed profiles and integer positions in `[0, 100]`, a
calculated state queried at or after its travel start time reports a
position inside the closed interval between `last_known_position` and
`travel_to_position`, for any direction including `STOPPED`. -/
theorem claim10_position_bounds (tc : TravelCalculator) (now : ℚ)
    (hpt : tc.position_type = PositionType.CALCULATED)
    (hvu : ValidProfile tc.segments_up) (hvd : ValidProfile tc.segments_down)
    (hlk : ∃ a : ℤ, tc.last_known_position = (a : ℚ))
    (htp : ∃ b : ℤ, tc.travel_to_position = (b : ℚ))
    (hl0 : 0 ≤ tc.last_known_position) (hl1 : tc.last_known_position ≤ 100)
    (ht0 : 0 ≤ tc.travel_to_position) (ht1 : tc.travel_to_position ≤ 100)
    (hnow : tc.travel_started_time ≤ now) :
    ∃ p, tc.current_position now = some p ∧
      min tc.last_known_position tc.travel_to_position ≤ p ∧
      p ≤ max tc.last_known_position tc.travel_to_position := by
  rw [TravelCalculator.current_position, if_pos hpt, calculate_position_eq]
  by_cases hb : position_reached_or_exceeded tc.travel_direction
      (tc.travel_to_position - tc.last_known_position) = true
  · rw [if_pos hb]
    exact ⟨_, rfl, min_le_right _ _, le_max_right _ _⟩
  · rw [if_neg hb]
    rw [Bool.not_eq_true] at hb
    by_cases hdir : tc.travel_direction = TravelStatus.DIRECTION_UP
    · rw [hdir] at hb
      have hrel := reached_false_up hb
      have hlt : tc.last_known_position < tc.travel_to_position := by linarith
      have hchain : ChainUp tc.last_known_position tc.traversedSegments
          tc.travel_to_position := by
        rw [traversedSegments_up tc hdir]
        exact traverse_up_chain (validFrom_consec _ 0 hvu) hl0 hlt ht1
      obtain ⟨pos, hw, hlo, hhi⟩ := position_walk_bounds_up hchain
        (show (0 : ℚ) ≤ now - tc.travel_started_time by linarith)
      simp only [hw]
      rw [if_pos hdir]
      by_cases hcl : tc.travel_to_position ≤ pos
      · rw [if_pos hcl]
        exact ⟨_, rfl, min_le_right _ _, le_max_right _ _⟩
      · rw [if_neg hcl]
        have h0p : 0 ≤ pos := le_trans hl0 hlo
        refine ⟨_, rfl, le_trans (min_le_left _ _) ?_, ?_⟩
        · obtain ⟨a, ha⟩ := hlk
          rw [ha]
          exact le_pyInt h0p (by rw [← ha]; exact hlo)
        · exact le_trans (le_trans (pyInt_le_self h0p) (le_of_not_le hcl))
            (le_max_right _ _)
    · rw [traversedSegments_not_up tc hdir]
      by_cases hord : tc.last_known_position ≤ tc.travel_to_position
      · rw [traverse_down_nil _ _ hord]
        simp only [position_walk]
        rw [if_neg hdir, if_pos hord]
        exact ⟨_, rfl, min_le_right _ _, le_max_right _ _⟩
      · have hlt : tc.travel_to_position < tc.last_known_position :=
          lt_of_not_le hord
        have hchain : ChainDown tc.last_known_position
            (traverse_down tc.last_known_position tc.travel_to_position
              (build_segment_ranges 0 tc.segments_down).reverse)
            tc.travel_to_position :=
          traverse_down_chain (validFrom_consec _ 0 hvd).rev hl1 hlt ht0
        obtain ⟨pos, hw, hlo, hhi⟩ := position_walk_bounds_down hchain
          (show (0 : ℚ) ≤ now - tc.travel_started_time by linarith)
        simp only [hw]
        rw [if_neg hdir]
        by_cases hcl : pos ≤ tc.travel_to_position
        · rw [if_pos hcl]
          exact ⟨_, rfl, min_le_right _ _, le_max_right _ _⟩
        · rw [if_neg hcl]
          have h0p : 0 ≤ pos := le_trans ht0 hlo
          refine ⟨_, rfl, le_trans (min_le_right _ _) ?_, ?_⟩
          · obtain ⟨b, hbeq⟩ := htp
            rw [hbeq]
            exact le_pyInt h0p (by rw [← hbeq]; exact hlo)
          · exact le_trans (le_trans (pyInt_le_self h0p) hhi) (le_max_left _ _)

/-- Witness for C10: the down travel of C2 at elapsed 10 reports 80, inside
`[60, 90]`. -/
theorem claim10_witness :
    ∃ p, (⟨PositionType.CALCULATED, 90, some 100, some 100, 60, 0,
      TravelStatus.DIRECTION_DOWN, 0, 100, [(100, 100)], [(100, 100)]⟩ :
      TravelCalculator).current_position 10 = some p ∧
      min (90 : ℚ) 60 ≤ p ∧ p ≤ max (90 : ℚ) 60 :=
  claim10_position_bounds
    ⟨PositionType.CALCULATED, 90, some 100, some 100, 60, 0,
      TravelStatus.DIRECTION_DOWN, 0, 100, [(100, 100)], [(100, 100)]⟩ 10
    rfl
    (by norm_num [ValidProfile, validFrom])
    (by norm_num [ValidProfile, validFrom])
    ⟨90, by norm_num⟩ ⟨60, by norm_num⟩
    (by norm_num) (by norm_num) (by norm_num) (by norm_num) (by norm_num)

/-- The state reached in the C4 scenario: travel 0→100 over the flat 100 s
profile, redirected to 0 at elapsed 40 s. -/
def tcC4 : TravelCalculator :=
  ⟨PositionType.CALCULATED, 40, some 100, some 100, 0, 40,
    TravelStatus.DIRECTION_DOWN, 0, 100, [(100, 100)], [(100, 100)]⟩

theorem position_walk_single (elapsed s e d : ℚ) (hd : d ≠ 0)
    (h : elapsed ≤ 0 + d) :
    position_walk elapsed 0 s [(s, e, d)] =
      some (s + (e - s) * ((elapsed - 0) / d)) := by
  rw [position_walk, if_pos h, if_neg hd]

/-- C4: from a confirmed position 0, travelling to 100 over a flat 100 s
profile, a `start_travel(0)` issued at elapsed 40 s freezes
`last_known_position` at 40, sets direction `DOWN` and restarts the clock at
the redirection instant: every later query interpolates downward from 40
with elapsed time measured from 40, reaching 0 at 80 and clamping there —
never interpolating from the original start 0. -/
theorem claim4_mid_travel_redirection :
    ((TravelCalculator.init (some 100) (some 100) none none).toOption.bind
      fun tc => ((tc.set_position 0).start_travel 0 100).bind
        fun t2 => t2.start_travel 40 0) = some tcC4 ∧
    tcC4.travel_direction = TravelStatus.DIRECTION_DOWN ∧
    tcC4.last_known_position = 40 ∧
    tcC4.travel_started_time = 40 ∧
    (∀ t : ℚ, 40 ≤ t → t ≤ 80 →
      tcC4.current_position t = some (pyInt (80 - t))) ∧
    (∀ t : ℚ, 80 ≤ t → tcC4.current_position t = some 0) := by
  have htrav : tcC4.traversedSegments = [(40, 0, 40)] := by
    norm_num [tcC4, TravelCalculator.traversedSegments,
      TravelCalculator.calculate_traversed_segments, build_segment_ranges,
      traverse_down]
  have hb : position_reached_or_exceeded tcC4.travel_direction
      (tcC4.travel_to_position - tcC4.last_known_position) = false := by
    norm_num [tcC4, position_reached_or_exceeded]
  have hlkp : tcC4.last_known_position = 40 := rfl
  refine ⟨?_, rfl, rfl, rfl, ?_, ?_⟩
  · norm_num [tcC4, TravelCalculator.init, mkSegments, TravelCalculator.set_position,
      TravelCalculator.start_travel, TravelCalculator.stop,
      TravelCalculator.current_position, TravelCalculator.calculate_position,
      TravelCalculator.position_from_time, TravelCalculator.calculate_traversed_segments,
      build_segment_ranges, traverse_up, traverse_down, position_walk,
      position_reached_or_exceeded, pyInt, Except.toOption, Option.bind,
      Option.map] <;> decide
  · intro t h1 h2
    have hcp := calculate_position_eq tcC4 t
    rw [htrav] at hcp
    simp only [hb, Bool.false_eq_true, if_false] at hcp
    have hw := position_walk_single (t - tcC4.travel_started_time) 40 0 40 (by norm_num)
      (by simp only [tcC4]; linarith)
    have heq : (40 : ℚ) + (0 - 40) * ((t - tcC4.travel_started_time - 0) / 40) =
        80 - t := by
      simp only [tcC4]
      ring
    rw [heq] at hw
    rw [hlkp, hw] at hcp
    rw [TravelCalculator.current_position,
      if_pos (show tcC4.position_type = PositionType.CALCULATED from rfl), hcp]
    simp [tcC4]
    rcases eq_or_lt_of_le h2 with rfl | h2'
    · norm_num [pyInt]
    · exact fun hc => absurd hc (not_le.mpr h2')
  · intro t h80
    have hchain : ChainDown 40 [((40 : ℚ), (0 : ℚ), (40 : ℚ))] 0 :=
      ChainDown.cons (by norm_num) (by norm_num) (ChainDown.nil 0)
    have hw := position_walk_total_down hchain
      (show (0 : ℚ) + sumDur [((40 : ℚ), (0 : ℚ), (40 : ℚ))] ≤
          t - tcC4.travel_started_time by
        norm_num [sumDur, tcC4]; linarith)
    have hcp := calculate_position_eq tcC4 t
    rw [htrav] at hcp
    simp only [hb, Bool.false_eq_true, if_false] at hcp
    rw [hlkp, hw] at hcp
    rw [TravelCalculator.current_position,
      if_pos (show tcC4.position_type = PositionType.CALCULATED from rfl), hcp]
    simp [tcC4]

/-- Witness for C4 at the concrete later time 60: the position is
`pyInt (80 - 60) = 20`, interpolated downward from 40. -/
theorem claim4_witness : tcC4.current_position 60 = some (pyInt (80 - 60)) :=
  claim4_mid_travel_redirection.2.2.2.2.1 60 (by norm_num) (by norm_num)
